import Mathlib

/-!
Verification of the univariate activation analysis
(`spoak_univariate_activation_analysis.py`).

The embedding models the numeric pipeline over exact rationals (`ℚ`):
Python floats are idealized as exact rational arithmetic, and Python's
banker's rounding (`round`) is modelled by `roundHalfEven`.  Binary event
and outcome columns with possible missing values are modelled as
`List (Option Bool)` (`none` = NaN, `some true` = 1, `some false` = 0),
and a loaded data frame as an association list from column names to
columns.  The scipy statistics (`chi2_contingency`, `fisher_exact`)
return p-values that are opaque to this development; they enter as an
oracle parameter, while their documented failure behaviour on degenerate
tables is modelled from the spec.
-/

namespace SpoakActivation

/-- Round a rational to the nearest integer with ties going to the even
integer — the semantics of Python's built-in `round`. -/
def roundHalfEven (q : ℚ) : ℤ :=
  if q - ⌊q⌋ < 1/2 then ⌊q⌋
  else if 1/2 < q - ⌊q⌋ then ⌊q⌋ + 1
  else if ⌊q⌋ % 2 = 0 then ⌊q⌋ else ⌊q⌋ + 1

/-- Significance level (source line 8: `alpha = 0.05`). -/
def alpha : ℚ := 5/100

/-- Source `get_sample_size_min` (lines 23–47): the minimum frequency of an
event for it to be considered, from the confidence level string and the
overall cancel rate.  Unrecognized confidence levels take the `else`
(high-confidence) branch. -/
def get_sample_size_min (confidence_level : String) (cancel_rate : ℚ) : ℤ :=
  if confidence_level = "low" then
    roundHalfEven (((115/100 : ℚ)^2 * cancel_rate * (1 - cancel_rate)) / (5/100 : ℚ)^2)
  else if confidence_level = "medium" then
    roundHalfEven (((144/100 : ℚ)^2 * cancel_rate * (1 - cancel_rate)) / (5/100 : ℚ)^2)
  else
    roundHalfEven (((196/100 : ℚ)^2 * cancel_rate * (1 - cancel_rate)) / (5/100 : ℚ)^2)

/-- The z-score the spec assigns to each confidence tier
(spec §4.1: low→1.15, medium→1.44, high/default→1.96). -/
def specZ (tier : String) : ℚ :=
  if tier = "low" then 23/20 else if tier = "medium" then 36/25 else 49/25

/-- `minimum_support` exactly as the spec words it (§4.1):
`n = round( z² · p · (1−p) / 0.05² )` with round-half-to-even. -/
def minimum_support_spec (tier : String) (p : ℚ) : ℤ :=
  roundHalfEven (specZ tier ^ 2 * p * (1 - p) / (1/20 : ℚ)^2)

/- Basic bounds on `roundHalfEven`. -/

lemma floor_le_roundHalfEven (q : ℚ) : ⌊q⌋ ≤ roundHalfEven q := by
  unfold roundHalfEven
  split_ifs <;> omega

lemma roundHalfEven_le_floor_add_one (q : ℚ) : roundHalfEven q ≤ ⌊q⌋ + 1 := by
  unfold roundHalfEven
  split_ifs <;> omega

lemma roundHalfEven_mono {x y : ℚ} (h : x ≤ y) : roundHalfEven x ≤ roundHalfEven y := by
  rcases lt_or_le ⌊x⌋ ⌊y⌋ with hf | hf
  · have h1 := roundHalfEven_le_floor_add_one x
    have h2 := floor_le_roundHalfEven y
    omega
  · have hfe : ⌊x⌋ = ⌊y⌋ := le_antisymm (Int.floor_le_floor h) hf
    unfold roundHalfEven
    rw [hfe]
    split_ifs <;> first | omega | linarith

/-- Evaluation rule: when `q` lies in `[k, k + 1/2)` it rounds to `k`. -/
lemma roundHalfEven_eq_of_lt_half {q : ℚ} {k : ℤ} (h1 : (k : ℚ) ≤ q)
    (h2 : q - k < 1/2) : roundHalfEven q = k := by
  have hf : ⌊q⌋ = k := Int.floor_eq_iff.2 ⟨h1, by linarith⟩
  have hc : q - (⌊q⌋ : ℚ) < 1/2 := by rw [hf]; exact h2
  unfold roundHalfEven
  rw [if_pos hc, hf]

lemma roundHalfEven_zero : roundHalfEven 0 = 0 :=
  roundHalfEven_eq_of_lt_half (k := 0) (by norm_num) (by norm_num)

/-- The concrete threshold of the spec's example scenario: at the default
"high" tier with overall outcome rate 0.10 the minimum support is
round(1.96² · 0.10 · 0.90 / 0.05²) = round(138.2976) = 138. -/
lemma get_sample_size_min_high_tenth : get_sample_size_min "high" (1/10) = 138 := by
  have h : get_sample_size_min "high" (1/10)
      = roundHalfEven (((196/100 : ℚ)^2 * (1/10) * (1 - 1/10)) / (5/100 : ℚ)^2) := by
    unfold get_sample_size_min
    rw [if_neg (by decide), if_neg (by decide)]
  rw [h]
  exact roundHalfEven_eq_of_lt_half (k := 138) (by norm_num) (by norm_num)

/-! ## Data model

A cell of a binary column: `none` is a missing value (NaN), `some true`
is 1, `some false` is 0.  A data frame is an association list from column
names to columns, in column order. -/

/-- One binary column of the data frame. -/
abbrev Col := List (Option Bool)

/-- A loaded data frame: named columns in order. -/
abbrev DF := List (String × Col)

/-- Column lookup by name (`df[name]`). -/
def getCol (df : DF) (name : String) : Col :=
  (Option.map Prod.snd (df.find? (fun c => c.1 == name))).getD []

/-- `events[col].sum()`: pandas skips NaN in sums, so the sum of a binary
column is the number of `some true` cells. -/
def colSum (col : Col) : ℕ :=
  col.countP (fun x => x == some true)

/-- Source line 134: the dict comprehension over the column sums keeps, in
column order, exactly the event columns whose sum is strictly greater than
`sample_size_min`. -/
def keep_event_cols (events : DF) (sample_size_min : ℤ) : List String :=
  (events.filter (fun c => decide (sample_size_min < (colSum c.2 : ℤ)))).map Prod.fst

/-- A 2×2 contingency table: `c e o` is the number of rows whose event cell
is `e` and outcome cell is `o` (row 0 = event absent, column 0 = outcome
absent, as `pd.crosstab` sorts the 0/1 values ascending). -/
structure CTab where
  c00 : ℕ
  c01 : ℕ
  c10 : ℕ
  c11 : ℕ
deriving DecidableEq

/-- Number of (event, outcome) cell pairs equal to `(some i, some j)`. -/
def cellCount (rows : List (Option Bool × Option Bool)) (i j : Bool) : ℕ :=
  rows.countP (fun p => p.1 == some i && p.2 == some j)

/-- `pd.crosstab(event, outcome)` on zipped columns: rows where either cell
is missing are not counted. -/
def ctPairs (rows : List (Option Bool × Option Bool)) : CTab :=
  ⟨cellCount rows false false, cellCount rows false true,
   cellCount rows true false, cellCount rows true true⟩

/-- `df[[event, outcome]].dropna()` (source line 65): keep the rows where
both cells are present. -/
def dropna (rows : List (Option Bool × Option Bool)) :
    List (Option Bool × Option Bool) :=
  rows.filter (fun p => p.1.isSome && p.2.isSome)

/-- The contingency-table step of `test_independence` (source lines 63–68):
the dropna-filtered frame `event_df` is computed but the crosstab is taken
over the full, undropped columns of `full_event_df`. -/
def test_independence_table (event outcome : String) (full_event_df : DF) : CTab :=
  let event_df := dropna ((getCol full_event_df event).zip (getCol full_event_df outcome))
  let _ := event_df
  ctPairs ((getCol full_event_df event).zip (getCol full_event_df outcome))

/-- The same step with the missing-value drop step removed entirely (the
reference behaviour the claim compares against). -/
def test_independence_table_nodrop (event outcome : String) (full_event_df : DF) : CTab :=
  ctPairs ((getCol full_event_df event).zip (getCol full_event_df outcome))

/-- A table with a zero row or column margin.  `pd.crosstab` omits absent
levels, so such a table does not have shape 2×2. -/
def degenerate (ct : CTab) : Bool :=
  ct.c00 + ct.c01 == 0 || ct.c10 + ct.c11 == 0 ||
  ct.c00 + ct.c10 == 0 || ct.c01 + ct.c11 == 0

/-- Source `test_independence` (lines 49–75).  The scipy p-values are an
oracle `pv` of the table.  Modelled from the spec (§4.3, §7): on a
degenerate table (zero row/column margin, so the crosstab is not 2×2) the
statistical tests raise — `scipy.stats.fisher_exact` rejects any table not
of shape (2, 2) — and the error propagates rather than being masked. -/
def test_independence (event outcome : String) (full_event_df : DF)
    (pv : CTab → ℚ × ℚ) : Except String (CTab × ℚ × ℚ) :=
  let event_ct := test_independence_table event outcome full_event_df
  if degenerate event_ct then Except.error "degenerate contingency table"
  else Except.ok (event_ct, (pv event_ct).1, (pv event_ct).2)

/-- One row of the result table (the dict built at source lines 108–119,
with the event name from the later `reset_index`). -/
structure Row where
  event : String
  lowest_p_value : ℚ
  p_chi_value : ℚ
  p_fisher_value : ℚ
  contingency_table : CTab
  no_event_population : ℕ
  event_population : ℕ
  no_event_cancel_rate : ℚ
  event_cancel_rate : ℚ
  effect_size : ℚ
  absolute_effect_size : ℚ
  statistically_significant : ℕ
deriving DecidableEq

/-- The per-event result row (source lines 98–119). -/
def mkRow (i : String) (ct : CTab) (p_chi p_fisher : ℚ) : Row :=
  let no_event_population := ct.c00 + ct.c01
  let no_event_conversion : ℚ := (ct.c01 : ℚ) / (no_event_population : ℚ)
  let event_population := ct.c10 + ct.c11
  let event_conversion : ℚ := (ct.c11 : ℚ) / (event_population : ℚ)
  { event := i
    lowest_p_value := min p_chi p_fisher
    p_chi_value := p_chi
    p_fisher_value := p_fisher
    contingency_table := ct
    no_event_population := no_event_population
    event_population := event_population
    no_event_cancel_rate := no_event_conversion
    event_cancel_rate := event_conversion
    effect_size := no_event_conversion - event_conversion
    absolute_effect_size := |no_event_conversion - event_conversion|
    statistically_significant := if min p_chi p_fisher ≤ alpha then 1 else 0 }

/-- Source `run_all_interventions` (lines 77–121): one result row per event
in `event_set`, in order; any error aborts the whole run with no partial
result. -/
def run_all_interventions (full_event_df : DF) (event_set : List String)
    (outcome : String) (pv : CTab → ℚ × ℚ) : Except String (List Row) :=
  match event_set with
  | [] => Except.ok []
  | i :: rest =>
    match test_independence i outcome full_event_df pv with
    | Except.error e => Except.error e
    | Except.ok (event_ct, p_chi, p_fisher) =>
      match run_all_interventions full_event_df rest outcome pv with
      | Except.error e => Except.error e
      | Except.ok rows => Except.ok (mkRow i event_ct p_chi p_fisher :: rows)

/-! ## Helper lemmas -/

@[simp] lemma mkRow_event (i : String) (ct : CTab) (pc pf : ℚ) :
    (mkRow i ct pc pf).event = i := rfl

@[simp] lemma mkRow_lowest_p_value (i : String) (ct : CTab) (pc pf : ℚ) :
    (mkRow i ct pc pf).lowest_p_value = min pc pf := rfl

@[simp] lemma mkRow_p_chi_value (i : String) (ct : CTab) (pc pf : ℚ) :
    (mkRow i ct pc pf).p_chi_value = pc := rfl

@[simp] lemma mkRow_p_fisher_value (i : String) (ct : CTab) (pc pf : ℚ) :
    (mkRow i ct pc pf).p_fisher_value = pf := rfl

@[simp] lemma mkRow_no_event_cancel_rate (i : String) (ct : CTab) (pc pf : ℚ) :
    (mkRow i ct pc pf).no_event_cancel_rate = (ct.c01 : ℚ) / ((ct.c00 + ct.c01 : ℕ) : ℚ) := rfl

@[simp] lemma mkRow_event_cancel_rate (i : String) (ct : CTab) (pc pf : ℚ) :
    (mkRow i ct pc pf).event_cancel_rate = (ct.c11 : ℚ) / ((ct.c10 + ct.c11 : ℕ) : ℚ) := rfl

@[simp] lemma mkRow_effect_size (i : String) (ct : CTab) (pc pf : ℚ) :
    (mkRow i ct pc pf).effect_size
      = (ct.c01 : ℚ) / ((ct.c00 + ct.c01 : ℕ) : ℚ)
        - (ct.c11 : ℚ) / ((ct.c10 + ct.c11 : ℕ) : ℚ) := rfl

@[simp] lemma mkRow_absolute_effect_size (i : String) (ct : CTab) (pc pf : ℚ) :
    (mkRow i ct pc pf).absolute_effect_size
      = |(ct.c01 : ℚ) / ((ct.c00 + ct.c01 : ℕ) : ℚ)
          - (ct.c11 : ℚ) / ((ct.c10 + ct.c11 : ℕ) : ℚ)| := rfl

@[simp] lemma mkRow_statistically_significant (i : String) (ct : CTab) (pc pf : ℚ) :
    (mkRow i ct pc pf).statistically_significant
      = if min pc pf ≤ alpha then 1 else 0 := rfl

/-- Membership in the retained-event list, for data frames with distinct
column names: a column's name is retained iff its sum beats the threshold. -/
lemma mem_keep_event_cols_iff {events : DF} (hnd : (events.map Prod.fst).Nodup)
    {c : String × Col} (hc : c ∈ events) (thr : ℤ) :
    c.1 ∈ keep_event_cols events thr ↔ thr < (colSum c.2 : ℤ) := by
  unfold keep_event_cols
  simp only [List.mem_map]
  constructor
  · rintro ⟨d, hd, hde⟩
    have hdmem : d ∈ events := List.mem_of_mem_filter hd
    have hdc : d = c := List.inj_on_of_nodup_map hnd hdmem hc hde
    have := List.of_mem_filter hd
    rw [hdc] at this
    simpa using this
  · intro hlt
    exact ⟨c, List.mem_filter.2 ⟨hc, by simpa using hlt⟩, rfl⟩

/-- A successful run produces one row per event, in order: the row events
are exactly the event set. -/
lemma run_ok_map_event {df : DF} {es : List String} {outcome : String}
    {pv : CTab → ℚ × ℚ} {rows : List Row}
    (h : run_all_interventions df es outcome pv = Except.ok rows) :
    rows.map Row.event = es := by
  induction es generalizing rows with
  | nil =>
    unfold run_all_interventions at h
    cases h
    rfl
  | cons i rest ih =>
    unfold run_all_interventions at h
    cases hti : test_independence i outcome df pv with
    | error e => rw [hti] at h; cases h
    | ok v =>
      obtain ⟨ct, pc, pf⟩ := v
      rw [hti] at h
      cases hrec : run_all_interventions df rest outcome pv with
      | error e => rw [hrec] at h; cases h
      | ok rows' =>
        rw [hrec] at h
        cases h
        simp [ih hrec]

/-- Every row of a successful run is literally a `mkRow`. -/
lemma run_ok_mem_mkRow {df : DF} {es : List String} {outcome : String}
    {pv : CTab → ℚ × ℚ} {rows : List Row}
    (h : run_all_interventions df es outcome pv = Except.ok rows) :
    ∀ r ∈ rows, ∃ i ct pc pf, r = mkRow i ct pc pf := by
  induction es generalizing rows with
  | nil =>
    unfold run_all_interventions at h
    cases h
    intro r hr
    cases hr
  | cons i rest ih =>
    unfold run_all_interventions at h
    cases hti : test_independence i outcome df pv with
    | error e => rw [hti] at h; cases h
    | ok v =>
      obtain ⟨ct, pc, pf⟩ := v
      rw [hti] at h
      cases hrec : run_all_interventions df rest outcome pv with
      | error e => rw [hrec] at h; cases h
      | ok rows' =>
        rw [hrec] at h
        cases h
        intro r hr
        rcases List.mem_cons.1 hr with hr | hr
        · exact ⟨i, ct, pc, pf, hr⟩
        · exact ih hrec r hr

/-- A degenerate table makes `test_independence` fail. -/
lemma test_independence_error_of_degenerate {event outcome : String} {df : DF}
    (pv : CTab → ℚ × ℚ)
    (h : degenerate (test_independence_table event outcome df) = true) :
    test_independence event outcome df pv
      = Except.error "degenerate contingency table" := by
  unfold test_independence
  rw [if_pos h]

/-- If any event of the set has a degenerate table, the whole run fails. -/
lemma run_error_of_degenerate {df : DF} {es : List String} {outcome : String}
    (pv : CTab → ℚ × ℚ)
    (h : ∃ e ∈ es, degenerate (test_independence_table e outcome df) = true) :
    ∃ msg, run_all_interventions df es outcome pv = Except.error msg := by
  induction es with
  | nil => obtain ⟨e, he, _⟩ := h; cases he
  | cons i rest ih =>
    unfold run_all_interventions
    by_cases hi : degenerate (test_independence_table i outcome df) = true
    · rw [test_independence_error_of_degenerate pv hi]
      exact ⟨_, rfl⟩
    · obtain ⟨e, he, hdeg⟩ := h
      rcases List.mem_cons.1 he with rfl | he
      · exact absurd hdeg hi
      · obtain ⟨msg, hmsg⟩ := ih ⟨e, he, hdeg⟩
        cases hti : test_independence i outcome df pv with
        | error e' => exact ⟨e', rfl⟩
        | ok v =>
          obtain ⟨ct, pc, pf⟩ := v
          rw [hmsg]
          exact ⟨msg, rfl⟩

/-- Dropping rows with a missing cell does not change any crosstab cell
count: a counted pair has both cells present already. -/
lemma cellCount_dropna (rows : List (Option Bool × Option Bool)) (i j : Bool) :
    cellCount (dropna rows) i j = cellCount rows i j := by
  induction rows with
  | nil => rfl
  | cons p rest ih =>
    rcases p with ⟨e, o⟩
    rcases e with _ | b <;> rcases o with _ | c <;>
      simp [cellCount, dropna, List.countP_cons, List.filter_cons] at ih ⊢ <;>
      omega

/-- `ctPairs` is invariant under the missing-value drop. -/
lemma ctPairs_dropna (rows : List (Option Bool × Option Bool)) :
    ctPairs (dropna rows) = ctPairs rows := by
  unfold ctPairs
  rw [cellCount_dropna, cellCount_dropna, cellCount_dropna, cellCount_dropna]

/-! ## Claims -/

/-- C1: for every base rate in [0,1], `get_sample_size_min` returns exactly
the spec's `round(z² · p · (1−p) / 0.05²)` with round-half-to-even, where z
is 1.15 for "low", 1.44 for "medium", and 1.96 for "high" and for every
unrecognized tier (the fallback is the "high" result, not an error). -/
theorem minimum_support_matches_spec (tier : String) (r : ℚ)
    (h0 : 0 ≤ r) (h1 : r ≤ 1) :
    get_sample_size_min tier r = minimum_support_spec tier r := by
  unfold get_sample_size_min minimum_support_spec specZ
  split_ifs <;> exact congrArg roundHalfEven (by ring)

/-- C1 witness: at the unrecognized tier "weird" and base rate 1/10 the
hypotheses hold and the source function agrees with the spec formula. -/
theorem minimum_support_matches_spec_witness :
    (0 : ℚ) ≤ 1/10 ∧ (1/10 : ℚ) ≤ 1 ∧
    get_sample_size_min "weird" (1/10) = minimum_support_spec "weird" (1/10) :=
  ⟨by norm_num, by norm_num,
   minimum_support_matches_spec "weird" (1/10) (by norm_num) (by norm_num)⟩

/-- C2: the event filter is strictly greater-than: with distinct column
names, an event column is retained iff its total count strictly exceeds the
threshold; a count equal to the threshold is excluded and a count of
threshold+1 is included; and at base rate 0.10 with tier "high" the
threshold is 138 (so 137 is dropped and 139 is tested). -/
theorem filter_strictly_greater (events : DF) (hnd : (events.map Prod.fst).Nodup)
    (c : String × Col) (hc : c ∈ events) (thr : ℤ) :
    (c.1 ∈ keep_event_cols events thr ↔ thr < (colSum c.2 : ℤ)) ∧
    ((colSum c.2 : ℤ) = thr → c.1 ∉ keep_event_cols events thr) ∧
    ((colSum c.2 : ℤ) = thr + 1 → c.1 ∈ keep_event_cols events thr) ∧
    get_sample_size_min "high" (1/10) = 138 := by
  have hiff := mem_keep_event_cols_iff hnd hc thr
  refine ⟨hiff, ?_, ?_, get_sample_size_min_high_tenth⟩
  · intro he hmem
    have := hiff.1 hmem
    omega
  · intro he
    exact hiff.2 (by omega)

/-- C2 witness: a one-column frame with count 1 against threshold 0. -/
theorem filter_strictly_greater_witness :
    (([("a", [some true])] : DF).map Prod.fst).Nodup ∧
    ("a", ([some true] : Col)) ∈ ([("a", [some true])] : DF) ∧
    ("a" ∈ keep_event_cols [("a", [some true])] 0 ↔ (0 : ℤ) < (colSum [some true] : ℤ)) :=
  ⟨by decide, by decide,
   (filter_strictly_greater [("a", [some true])] (by decide)
     ("a", [some true]) (by decide) 0).1⟩

/-- C3: every row of a successful run has `statistically_significant = 1`
iff the minimum of its two p-values is at most alpha (0.05), equals 0
otherwise, and `lowest_p_value` is that minimum. -/
theorem significance_consistency (df : DF) (event_set : List String)
    (outcome : String) (pv : CTab → ℚ × ℚ) (rows : List Row)
    (h : run_all_interventions df event_set outcome pv = Except.ok rows)
    (r : Row) (hr : r ∈ rows) :
    r.lowest_p_value = min r.p_chi_value r.p_fisher_value ∧
    (r.statistically_significant = 1 ↔ min r.p_chi_value r.p_fisher_value ≤ alpha) ∧
    (r.statistically_significant = 0 ↔ ¬ min r.p_chi_value r.p_fisher_value ≤ alpha) := by
  obtain ⟨i, ct, pc, pf, rfl⟩ := run_ok_mem_mkRow h r hr
  by_cases hle : min pc pf ≤ alpha <;> simp [hle]

/-- C3 witness: a concrete two-subject run with oracle p-values (1, 1). -/
theorem significance_consistency_witness :
    run_all_interventions [("e", [some false, some true]), ("out", [some false, some true])]
        ["e"] "out" (fun _ => (1, 1))
      = Except.ok [mkRow "e" ⟨1, 0, 0, 1⟩ 1 1] ∧
    mkRow "e" ⟨1, 0, 0, 1⟩ 1 1 ∈ [mkRow "e" ⟨1, 0, 0, 1⟩ 1 1] ∧
    (mkRow "e" ⟨1, 0, 0, 1⟩ 1 1).lowest_p_value
      = min (mkRow "e" ⟨1, 0, 0, 1⟩ 1 1).p_chi_value
          (mkRow "e" ⟨1, 0, 0, 1⟩ 1 1).p_fisher_value :=
  ⟨rfl, List.mem_singleton_self _,
   (significance_consistency
     [("e", [some false, some true]), ("out", [some false, some true])]
     ["e"] "out" (fun _ => (1, 1)) [mkRow "e" ⟨1, 0, 0, 1⟩ 1 1] rfl
     (mkRow "e" ⟨1, 0, 0, 1⟩ 1 1) (List.mem_singleton_self _)).1⟩

/-- C4: the contingency table of `test_independence` is computed over the
full, undropped columns: it equals the table of an embedding with the
missing-value drop step removed entirely, and dropping the NaN rows would
not have changed the emitted counts anyway. -/
theorem drop_step_no_effect (event outcome : String) (df : DF) :
    test_independence_table event outcome df
      = test_independence_table_nodrop event outcome df ∧
    ctPairs (dropna ((getCol df event).zip (getCol df outcome)))
      = test_independence_table_nodrop event outcome df :=
  ⟨rfl, ctPairs_dropna _⟩

/-- C5: for every row of a successful run with both populations non-zero,
`effect_size` is the no-event rate minus the event rate, so it is negative
exactly when the exposed group's rate is strictly higher, positive exactly
when strictly lower, zero exactly when equal; `absolute_effect_size` is its
absolute value. -/
theorem effect_size_sign (df : DF) (event_set : List String) (outcome : String)
    (pv : CTab → ℚ × ℚ) (rows : List Row)
    (h : run_all_interventions df event_set outcome pv = Except.ok rows)
    (r : Row) (hr : r ∈ rows)
    (h0 : r.no_event_population ≠ 0) (h1 : r.event_population ≠ 0) :
    r.effect_size = r.no_event_cancel_rate - r.event_cancel_rate ∧
    (r.no_event_cancel_rate < r.event_cancel_rate ↔ r.effect_size < 0) ∧
    (r.event_cancel_rate < r.no_event_cancel_rate ↔ 0 < r.effect_size) ∧
    (r.event_cancel_rate = r.no_event_cancel_rate ↔ r.effect_size = 0) ∧
    r.absolute_effect_size = |r.effect_size| := by
  obtain ⟨i, ct, pc, pf, rfl⟩ := run_ok_mem_mkRow h r hr
  refine ⟨rfl, ?_, ?_, ?_, rfl⟩
  · simp only [mkRow_no_event_cancel_rate, mkRow_event_cancel_rate, mkRow_effect_size]
    constructor <;> intro <;> linarith
  · simp only [mkRow_no_event_cancel_rate, mkRow_event_cancel_rate, mkRow_effect_size]
    constructor <;> intro <;> linarith
  · simp only [mkRow_no_event_cancel_rate, mkRow_event_cancel_rate, mkRow_effect_size]
    constructor <;> intro h' <;> linarith [h']

/-- C5 witness: the concrete run of the C3 scenario has both populations
equal to 1 and satisfies the effect-size identities. -/
theorem effect_size_sign_witness :
    run_all_interventions [("f", [some false, some true]), ("out", [some false, some true])]
        ["f"] "out" (fun _ => (1, 1))
      = Except.ok [mkRow "f" ⟨1, 0, 0, 1⟩ 1 1] ∧
    (mkRow "f" ⟨1, 0, 0, 1⟩ 1 1).no_event_population ≠ 0 ∧
    (mkRow "f" ⟨1, 0, 0, 1⟩ 1 1).event_population ≠ 0 ∧
    (mkRow "f" ⟨1, 0, 0, 1⟩ 1 1).effect_size
      = (mkRow "f" ⟨1, 0, 0, 1⟩ 1 1).no_event_cancel_rate
        - (mkRow "f" ⟨1, 0, 0, 1⟩ 1 1).event_cancel_rate :=
  ⟨rfl, by decide, by decide,
   (effect_size_sign
     [("f", [some false, some true]), ("out", [some false, some true])]
     ["f"] "out" (fun _ => (1, 1)) [mkRow "f" ⟨1, 0, 0, 1⟩ 1 1] rfl
     (mkRow "f" ⟨1, 0, 0, 1⟩ 1 1) (List.mem_singleton_self _)
     (by decide) (by decide)).1⟩

/-- C6: if some event of the set has a contingency table with a zero row or
column margin, the run fails with a propagated error: no result table is
produced and no per-event isolation occurs. -/
theorem degenerate_table_aborts (df : DF) (event_set : List String)
    (outcome : String) (pv : CTab → ℚ × ℚ)
    (h : ∃ e ∈ event_set, degenerate (test_independence_table e outcome df) = true) :
    (∃ msg, run_all_interventions df event_set outcome pv = Except.error msg) ∧
    ∀ rows, run_all_interventions df event_set outcome pv ≠ Except.ok rows := by
  obtain ⟨msg, hmsg⟩ := run_error_of_degenerate pv h
  refine ⟨⟨msg, hmsg⟩, fun rows hrows => ?_⟩
  rw [hmsg] at hrows
  cases hrows

/-- C6 witness: an event present in every subject has a zero "event absent"
row margin, and the concrete run errors. -/
theorem degenerate_table_aborts_witness :
    (∃ e ∈ ["e"], degenerate (test_independence_table e "out"
      [("e", [some true, some true]), ("out", [some false, some true])]) = true) ∧
    ∃ msg, run_all_interventions
      [("e", [some true, some true]), ("out", [some false, some true])]
      ["e"] "out" (fun _ => (1, 1)) = Except.error msg :=
  ⟨⟨"e", List.mem_singleton_self _, by decide⟩,
   (degenerate_table_aborts
     [("e", [some true, some true]), ("out", [some false, some true])]
     ["e"] "out" (fun _ => (1, 1))
     ⟨"e", List.mem_singleton_self _, by decide⟩).1⟩

/-- C7: for every base rate strictly between 0 and 1 the thresholds are
monotone in the confidence tier: low ≤ medium ≤ high. -/
theorem minimum_support_monotone (r : ℚ) (h0 : 0 < r) (h1 : r < 1) :
    get_sample_size_min "low" r ≤ get_sample_size_min "medium" r ∧
    get_sample_size_min "medium" r ≤ get_sample_size_min "high" r := by
  have ht : 0 ≤ r * (1 - r) := mul_nonneg h0.le (by linarith)
  have elow : get_sample_size_min "low" r
      = roundHalfEven ((529 : ℚ) * (r * (1 - r))) := by
    unfold get_sample_size_min
    rw [if_pos rfl]
    exact congrArg roundHalfEven (by ring)
  have emed : get_sample_size_min "medium" r
      = roundHalfEven ((20736/25 : ℚ) * (r * (1 - r))) := by
    unfold get_sample_size_min
    rw [if_neg (by decide), if_pos rfl]
    exact congrArg roundHalfEven (by ring)
  have ehigh : get_sample_size_min "high" r
      = roundHalfEven ((38416/25 : ℚ) * (r * (1 - r))) := by
    unfold get_sample_size_min
    rw [if_neg (by decide), if_neg (by decide)]
    exact congrArg roundHalfEven (by ring)
  refine ⟨?_, ?_⟩
  · rw [elow, emed]
    exact roundHalfEven_mono (mul_le_mul_of_nonneg_right (by norm_num) ht)
  · rw [emed, ehigh]
    exact roundHalfEven_mono (mul_le_mul_of_nonneg_right (by norm_num) ht)

/-- C7 witness: monotonicity at base rate 1/2. -/
theorem minimum_support_monotone_witness :
    (0 : ℚ) < 1/2 ∧ (1/2 : ℚ) < 1 ∧
    get_sample_size_min "low" (1/2) ≤ get_sample_size_min "medium" (1/2) :=
  ⟨by norm_num, by norm_num,
   (minimum_support_monotone (1/2) (by norm_num) (by norm_num)).1⟩

/-- C8: for every confidence tier and base rate in [0,1] the threshold is
symmetric around 1/2: it agrees at r and 1−r. -/
theorem minimum_support_symmetric (tier : String) (r : ℚ)
    (h0 : 0 ≤ r) (h1 : r ≤ 1) :
    get_sample_size_min tier r = get_sample_size_min tier (1 - r) := by
  unfold get_sample_size_min
  split_ifs <;> exact congrArg roundHalfEven (by ring)

/-- C8 witness: symmetry at tier "medium" and base rate 1/4. -/
theorem minimum_support_symmetric_witness :
    (0 : ℚ) ≤ 1/4 ∧ (1/4 : ℚ) ≤ 1 ∧
    get_sample_size_min "medium" (1/4) = get_sample_size_min "medium" (1 - 1/4) :=
  ⟨by norm_num, by norm_num,
   minimum_support_symmetric "medium" (1/4) (by norm_num) (by norm_num)⟩

/-- C9: output order is deterministic and follows the input column order:
the result rows of a successful run carry exactly the retained event names
in order, the retained list is an order-preserving sublist of the event
columns, and two runs on equal inputs produce the same rows. -/
theorem output_order_deterministic (events : DF) (thr : ℤ) (df : DF)
    (outcome : String) (pv : CTab → ℚ × ℚ) (rows : List Row)
    (h : run_all_interventions df (keep_event_cols events thr) outcome pv
      = Except.ok rows) :
    rows.map Row.event = keep_event_cols events thr ∧
    List.Sublist (keep_event_cols events thr) (events.map Prod.fst) ∧
    ∀ rows', run_all_interventions df (keep_event_cols events thr) outcome pv
      = Except.ok rows' → rows' = rows := by
  refine ⟨run_ok_map_event h, ?_, ?_⟩
  · unfold keep_event_cols
    exact (List.filter_sublist _).map _
  · intro rows' h'
    rw [h] at h'
    injection h' with h''
    exact h''.symm

/-- C9 witness: a concrete one-event run whose row list carries the
retained event name. -/
theorem output_order_deterministic_witness :
    run_all_interventions
        [("g", [some false, some true]), ("out", [some false, some true])]
        (keep_event_cols [("g", [some false, some true])] 0) "out" (fun _ => (1, 1))
      = Except.ok [mkRow "g" ⟨1, 0, 0, 1⟩ 1 1] ∧
    [mkRow "g" ⟨1, 0, 0, 1⟩ 1 1].map Row.event
      = keep_event_cols [("g", [some false, some true])] 0 :=
  ⟨rfl,
   (output_order_deterministic [("g", [some false, some true])] 0
     [("g", [some false, some true]), ("out", [some false, some true])]
     "out" (fun _ => (1, 1)) [mkRow "g" ⟨1, 0, 0, 1⟩ 1 1] rfl).1⟩

/-- C10: at base rate exactly 0 or exactly 1 the threshold is 0 for every
tier, so every event column with at least one occurrence passes the
strictly-greater-than filter. -/
theorem extreme_base_rate_vacuous_filter (tier : String) (r : ℚ)
    (hr : r = 0 ∨ r = 1) :
    get_sample_size_min tier r = 0 ∧
    ∀ (events : DF) (c : String × Col), (events.map Prod.fst).Nodup →
      c ∈ events → 1 ≤ colSum c.2 →
      c.1 ∈ keep_event_cols events (get_sample_size_min tier r) := by
  have hzero : get_sample_size_min tier r = 0 := by
    rcases hr with rfl | rfl <;>
    · unfold get_sample_size_min
      split_ifs <;>
        exact Eq.trans (congrArg roundHalfEven (by ring)) roundHalfEven_zero
  refine ⟨hzero, ?_⟩
  intro events c hnd hc hcount
  rw [hzero]
  refine (mem_keep_event_cols_iff hnd hc 0).2 ?_
  have hpos : 0 < colSum c.2 := hcount
  exact_mod_cast hpos

/-- C10 witness: at tier "high" and base rate 0, a column with one
occurrence is retained. -/
theorem extreme_base_rate_vacuous_filter_witness :
    ((0 : ℚ) = 0 ∨ (0 : ℚ) = 1) ∧
    (([("a", [some true])] : DF).map Prod.fst).Nodup ∧
    ("a", ([some true] : Col)) ∈ ([("a", [some true])] : DF) ∧
    1 ≤ colSum [some true] ∧
    "a" ∈ keep_event_cols [("a", [some true])] (get_sample_size_min "high" 0) :=
  ⟨Or.inl rfl, by decide, by decide, by decide,
   (extreme_base_rate_vacuous_filter "high" 0 (Or.inl rfl)).2
     [("a", [some true])] ("a", [some true]) (by decide) (by decide) (by decide)⟩

end SpoakActivation
